import Mathlib

/-!
Verification development for the libcommon/task-py repository.

The repository contains two generations of the same library:
* the legacy shape (src/lc_task/task.py, src/lc_task/cli.py), where a Task
  carries a free-form `state` dictionary and an optional `result`;
* the modern shape (src/src/lc_task/task.py, src/src/lc_task/cli.py), where a
  Task is a slotted dataclass with a `raise_exceptions` flag and a `result`
  created in `__post_init__`.

Both generations are embedded shallowly below: Python attribute bags become
association lists over a small inductive `Value` type, `merge_object` becomes a
pure function on those task records, `run` becomes a function that also returns
the trace of lifecycle hook invocations, and raised exceptions become
`Except` errors.
-/

namespace LcTask

/-- Model of a Python runtime value as far as the task library inspects it:
it only ever needs truthiness, dictionaries, task results and opaque scalars. -/
inductive Value where
  | vNone
  | vBool (b : Bool)
  | vInt (n : Int)
  | vStr (s : String)
  | vDict (entries : List (String × Value))
  | vRes (err : Option Value) (fields : List (String × Value))

/-- An attribute bag: an insertion-ordered association list, the shape of both
Python dict items and the attribute pairs produced by the merge engine. -/
abbrev AList := List (String × Value)

/-- Lookup of a name in an attribute bag (first match wins, as in a dict). -/
def alistGet : AList → String → Option Value
  | [], _ => none
  | (k, v) :: rest, n => if k = n then some v else alistGet rest n

/-- Setting a name in an attribute bag: update in place if the key exists
(keeping dict insertion order), otherwise append, as Python dict/setattr do. -/
def alistSet : AList → String → Value → AList
  | [], n, v => [(n, v)]
  | (k, w) :: rest, n, v =>
      if k = n then (k, v) :: rest else (k, w) :: alistSet rest n v

/-- Lexicographic comparison of two character lists by code point, the
ordering Python uses on strings. -/
def charListLe : List Char → List Char → Bool
  | [], _ => true
  | _ :: _, [] => false
  | c :: cs, d :: ds =>
      if c.toNat < d.toNat then true
      else if d.toNat < c.toNat then false
      else charListLe cs ds

/-- Python string comparison a <= b, by code points. -/
def strLe (a b : String) : Bool := charListLe a.data b.data

/-- Insert a pair into a name-sorted list, keeping it sorted: a step of the
alphabetical ordering that Python dir() and Namespace._get_kwargs apply. -/
def insertPairSorted (p : String × Value) : AList → AList
  | [] => [p]
  | q :: qs => if strLe p.1 q.1 then p :: q :: qs else q :: insertPairSorted p qs

/-- Sort an attribute bag by name (insertion sort), modelling Python sorted()
over attribute names as used by dir() and Namespace._get_kwargs. -/
def sortPairs (l : AList) : AList := l.foldr insertPairSorted []

/-- Result of running a task (class TaskResult): the captured exception, plus
the declared fields of a TaskResult subclass. -/
structure TaskResultM where
  err : Option Value
  fields : AList

/-- Python truthiness, as used by bool(include), bool(exclude) and
`if self.raise_exceptions`. -/
def truthy : Value → Bool
  | .vNone => false
  | .vBool b => b
  | .vInt n => n != 0
  | .vStr s => s != ""
  | .vDict d => !d.isEmpty
  | .vRes _ _ => true

/-- Truthiness of an optional set argument: bool(None) is false, and a set is
truthy exactly when non-empty. -/
def optNonempty : Option (List String) → Bool
  | none => false
  | some l => !l.isEmpty

/-- getattr on an Option-valued reference: None stays None. -/
def errValue : Option Value → Value
  | none => .vNone
  | some v => v

/-! ## Legacy shape (src/lc_task/task.py) -/

/-- Legacy Task: __slots__ = ("state", "result"), subclasses add further slot
attributes (`attrs`); `excludeFromMerge` models the class variable
_EXCLUDE_FROM_MERGE. -/
structure LTask where
  attrs : AList
  state : Option AList
  result : Option TaskResultM
  excludeFromMerge : List String

/-- Legacy Task.__init__(state=None, result=None): both default to None; the
class variable _EXCLUDE_FROM_MERGE is whatever the class declares. -/
def lTaskInit (excl : List String) (attrs : AList)
    (state : Option AList := none) (result : Option TaskResultM := none) : LTask :=
  { attrs := attrs, state := state, result := result, excludeFromMerge := excl }

/-- Legacy Task.gen_task_result(): an empty TaskResult(). -/
def genTaskResult : TaskResultM := { err := none, fields := [] }

/-- Value of a task result reference when read back through getattr. -/
def taskResultValue : Option TaskResultM → Value
  | none => .vNone
  | some r => .vRes r.err r.fields

/-- Value of the free-form state reference when read back through getattr. -/
def stateValue : Option AList → Value
  | none => .vNone
  | some d => .vDict d

/-- _gen_pairs_from_slots_object on a legacy Task: dir(obj) yields the
non-underscore non-callable attributes (the subclass slots plus `result` and
`state`), alphabetically sorted. -/
def lSlotsPairs (t : LTask) : AList :=
  sortPairs (("result", taskResultValue t.result) :: ("state", stateValue t.state) :: t.attrs)

/-- _gen_pairs_from_slots_object on a TaskResult: dir(obj) yields `err` plus
the subclass fields, alphabetically sorted. -/
def resultSlotsPairs (r : TaskResultM) : AList :=
  sortPairs (("err", errValue r.err) :: r.fields)

/-- The shapes a legacy merge source can have.  `unsupported` stands for any
object that is none of the supported types; `hasSlots` records whether it
defines __slots__ and `pairs` what dir() would extract from it (only the
modern generation ever looks at those). -/
inductive LSource where
  | none
  | dict (entries : AList)
  | nspace (entries : AList)
  | task (t : LTask)
  | taskResult (r : TaskResultM)
  | unsupported (hasSlots : Bool) (pairs : AList)

/-- Legacy _gen_pairs_from_object: dict items in insertion order, Namespace
kwargs sorted by name, a Task contributes its state items followed by its
slot pairs, a TaskResult its slot pairs, anything else raises TypeError. -/
def lGenPairsFromObject : LSource → Except String AList
  | .none => .ok []
  | .dict e => .ok e
  | .nspace e => .ok (sortPairs e)
  | .task t =>
      .ok ((match t.state with | Option.none => [] | some s => s) ++ lSlotsPairs t)
  | .taskResult r => .ok (resultSlotsPairs r)
  | .unsupported _ _ => .error "TypeError: cannot generate name-value pairs"

/-- hasattr(self, name) on a legacy task: the two base slots plus the
subclass slot attributes. -/
def lHasattr (t : LTask) (name : String) : Bool :=
  name == "state" || name == "result" || (alistGet t.attrs name).isSome

/-- Legacy Task._merge_value_with_name: names `result` and `state` are never
merged; a name the task exposes is set directly; any other name is inserted
into the free-form state dict, created lazily on first use. -/
def legacyMergeValueWithName (t : LTask) (name : String) (value : Value) : LTask :=
  if name = "result" ∨ name = "state" then t
  else if lHasattr t name then { t with attrs := alistSet t.attrs name value }
  else { t with state := some (alistSet (t.state.getD []) name value) }

/-- Legacy Task.merge_object(obj, include, exclude, overwrite): extract pairs
from the source, resolve the include/exclude filter (exclude wins, the class
exclusion set is unioned in), merge each surviving pair through
_merge_value_with_name, then merge every overwrite entry unconditionally. -/
def legacyMergeObject (t : LTask) (obj : LSource)
    (inc exc : Option (List String)) (overwrite : Option AList) :
    Except String LTask :=
  match lGenPairsFromObject obj with
  | .error e => .error e
  | .ok items =>
    let excludeGiven0 := optNonempty exc
    let includeGiven0 := optNonempty inc
    let inc1 := if excludeGiven0 && includeGiven0 then Option.none else inc
    let includeGiven1 := if excludeGiven0 && includeGiven0 then false else includeGiven0
    let excSet := exc.getD [] ++ t.excludeFromMerge
    let excludeGiven1 := excludeGiven0 || !excSet.isEmpty
    let excludeIncludeGiven := excludeGiven1 || includeGiven1
    let merged := items.foldl (fun acc p =>
      if !excludeIncludeGiven ||
          (!(decide (p.1 ∈ excSet)) &&
            (!includeGiven1 || decide (p.1 ∈ inc1.getD []))) then
        legacyMergeValueWithName acc p.1 p.2
      else acc) t
    match overwrite with
    | Option.none => .ok merged
    | some ow =>
        .ok (ow.foldl (fun acc p => legacyMergeValueWithName acc p.1 p.2) merged)

/-! ## Modern shape (src/src/lc_task/task.py) -/

/-- Modern Task: a slotted dataclass with the declared fields
`raise_exceptions` and `result`, subclass fields (`fields`), and the class
variable `_exclude_from_merge`.  Attribute values are untyped, as setattr is. -/
structure MTask where
  raise_exceptions : Value
  result : Value
  fields : AList
  excludeFromMerge : List String

/-- Modern Task construction: the dataclass __init__ followed by
__post_init__, which sets `result` to a fresh instance of `_result_cls` and
adds `raise_exceptions` and `result` to the class exclusion set.
`declExcl` is the exclusion set declared by the class, `resultDefaults` the
default field values of its `_result_cls`. -/
def mTaskInit (declExcl : List String) (resultDefaults : AList)
    (fields : AList) (raiseExceptions : Value := .vBool false) : MTask :=
  { raise_exceptions := raiseExceptions
    result := .vRes Option.none resultDefaults
    fields := fields
    excludeFromMerge := "raise_exceptions" :: "result" :: declExcl }

/-- hasattr(self, name) on a modern task: the two base dataclass fields plus
the subclass fields. -/
def mHasattr (t : MTask) (name : String) : Bool :=
  name == "raise_exceptions" || name == "result" || (alistGet t.fields name).isSome

/-- setattr(self, name, value) on a modern task.  Call sites in the merge
engine always guard it with hasattr, so the fall-through (which in Python
would raise AttributeError) is unreachable there and modelled as a no-op. -/
def mSetattr (t : MTask) (name : String) (value : Value) : MTask :=
  if name = "raise_exceptions" then { t with raise_exceptions := value }
  else if name = "result" then { t with result := value }
  else if (alistGet t.fields name).isSome then
    { t with fields := alistSet t.fields name value }
  else t

/-- _gen_pairs_from_slots_object on a modern Task: dir(obj) yields
`raise_exceptions`, `result` and the subclass fields, alphabetically sorted. -/
def mSlotsPairs (t : MTask) : AList :=
  sortPairs (("raise_exceptions", t.raise_exceptions) :: ("result", t.result) :: t.fields)

/-- The shapes a modern merge source can have; `unsupported` is an object of
a type outside the StatePropagationSource union, with `hasSlots` recording
whether its class defines __slots__ and `pairs` its dir() attribute pairs. -/
inductive MSource where
  | none
  | dict (entries : AList)
  | nspace (entries : AList)
  | task (t : MTask)
  | taskResult (r : TaskResultM)
  | unsupported (hasSlots : Bool) (pairs : AList)

/-- Modern _gen_pairs_from_object: None, dict and Namespace as in the legacy
shape, but the final branch is a bare else that feeds any remaining object to
_gen_pairs_from_slots_object, which only raises TypeError when the object
does not define __slots__. -/
def mGenPairsFromObject : MSource → Except String AList
  | .none => .ok []
  | .dict e => .ok e
  | .nspace e => .ok (sortPairs e)
  | .task t => .ok (mSlotsPairs t)
  | .taskResult r => .ok (resultSlotsPairs r)
  | .unsupported hasSlots pairs =>
      if hasSlots then .ok (sortPairs pairs)
      else .error "TypeError: does not define __slots__"

/-- Modern Task.merge_object: same filter resolution as the legacy shape, but
a pair is applied only if the task already exposes the attribute
(hasattr/setattr), and overwrite entries are likewise set only if
recognized. -/
def modernMergeObject (t : MTask) (obj : MSource)
    (inc exc : Option (List String)) (overwrite : Option AList) :
    Except String MTask :=
  match mGenPairsFromObject obj with
  | .error e => .error e
  | .ok items =>
    let excludeGiven0 := optNonempty exc
    let includeGiven0 := optNonempty inc
    let inc1 := if excludeGiven0 && includeGiven0 then Option.none else inc
    let includeGiven1 := if excludeGiven0 && includeGiven0 then false else includeGiven0
    let excSet := exc.getD [] ++ t.excludeFromMerge
    let excludeGiven1 := excludeGiven0 || !excSet.isEmpty
    let excludeIncludeGiven := excludeGiven1 || includeGiven1
    let merged := items.foldl (fun acc p =>
      if mHasattr acc p.1 &&
          (!excludeIncludeGiven ||
            (!(decide (p.1 ∈ excSet)) &&
              (!includeGiven1 || decide (p.1 ∈ inc1.getD [])))) then
        mSetattr acc p.1 p.2
      else acc) t
    match overwrite with
    | Option.none => .ok merged
    | some ow =>
        .ok (ow.foldl (fun acc p =>
          if mHasattr acc p.1 then mSetattr acc p.1 p.2 else acc) merged)

/-! ## Run lifecycle -/

/-- Lifecycle hook events, for observing how often each hook runs. -/
inductive Ev where
  | preambleRun
  | performRun
  | postambleRun
deriving DecidableEq

/-- The dynamic behavior of a legacy task subclass: what its hooks do to the
instance.  `perform` returns the mutated instance together with the exception
it raised, if any (the preamble and postamble must not raise, per contract). -/
structure LBehavior where
  preamble : LTask → LTask
  perform : LTask → LTask × Option Value
  postamble : LTask → LTask

/-- Legacy Task.run(): preamble, then _perform_task; on an exception the error
is captured on the result (created via gen_task_result if still None); the
postamble then runs and self.result is returned.  Nothing ever re-raises. -/
def runLegacy (b : LBehavior) (t0 : LTask) : List Ev × LTask :=
  let t1 := b.preamble t0
  let (t2, raised) := b.perform t1
  let t2e :=
    match raised with
    | Option.none => t2
    | some exc =>
        let r := match t2.result with
          | Option.none => genTaskResult
          | some r => r
        { t2 with result := some { r with err := some exc } }
  let t3 := b.postamble t2e
  ([Ev.preambleRun, Ev.performRun, Ev.postambleRun], t3)

/-- The dynamic behavior of a modern task subclass. -/
structure MBehavior where
  preamble : MTask → MTask
  perform : MTask → MTask × Option Value
  postamble : MTask → MTask

/-- self.result.err = exc on a modern task result value. -/
def setResErr (r : Value) (e : Value) : Value :=
  match r with
  | .vRes _ fs => .vRes (some e) fs
  | other => other

/-- Modern Task.run(): preamble, then _perform_task inside
try/except/finally; on an exception the error is set on the result first,
then re-raised when raise_exceptions is truthy; the postamble runs in the
finally block on every path.  The outcome is the returned (result, task) on
normal return, or the escaping (exception, task) when it re-raises. -/
def runModern (b : MBehavior) (t0 : MTask) :
    List Ev × Except (Value × MTask) (Value × MTask) :=
  let t1 := b.preamble t0
  let (t2, raised) := b.perform t1
  match raised with
  | Option.none =>
      let t3 := b.postamble t2
      ([Ev.preambleRun, Ev.performRun, Ev.postambleRun], .ok (t3.result, t3))
  | some exc =>
      let t2e := { t2 with result := setResErr t2.result exc }
      if truthy t2e.raise_exceptions then
        let t3 := b.postamble t2e
        ([Ev.preambleRun, Ev.performRun, Ev.postambleRun], .error (exc, t3))
      else
        let t3 := b.postamble t2e
        ([Ev.preambleRun, Ev.performRun, Ev.postambleRun], .ok (t3.result, t3))

/-- Read the captured error out of a modern result value. -/
def errOfValue : Value → Option Value
  | .vRes e _ => e
  | _ => none

/-- Whether a modern result reference actually is a TaskResult object
(as opposed to None or some other value). -/
def Value.isRes : Value → Bool
  | .vRes _ _ => true
  | _ => false

/-! ## Command tree builder (src/lc_task/cli.py and src/src/lc_task/cli.py) -/

/-- A command line parser, reduced to what gen_cli_parser builds: the tree of
registered subcommand parsers, each with its labels (primary plus aliases)
and help text. -/
inductive CParser where
  | mk (subs : List (List String × String × CParser))

/-- The registered subcommand parsers of a parser. -/
def CParser.subs : CParser → List (List String × String × CParser)
  | .mk s => s

/-- A key of the legacy CLIParserConfig: a ("command", "description") tuple, a
CLITask subclass (empty strings model unset COMMAND/DESCRIPTION), a class not
deriving CLITask, or a non-class object. -/
inductive LCKey where
  | tup (label : String) (descr : String)
  | cliTask (command : String) (descr : String)
  | otherClass
  | nonClass

/-- A legacy parser config: a dict from keys to child configs, written as a
cons list of (key, child) entries; `nil` is the empty dict. -/
inductive LConfig where
  | nil
  | cons (key : LCKey) (child : LConfig) (rest : LConfig)

/-- The entry loop of the legacy gen_cli_parser: each tuple key registers a
grouping parser, each CLITask key registers its command parser (ValueError if
COMMAND or DESCRIPTION is unset), any other key raises TypeError (directly
for a non-CLITask class, from issubclass for a non-class); a non-empty child
config is built recursively into the just-created subparser. -/
def goLegacyCli : LConfig → Except String (List (List String × String × CParser))
  | .nil => .ok []
  | .cons key child rest => do
      let labeled ← (match key with
        | .tup label descr => .ok ([label], descr)
        | .cliTask command descr =>
            if command = "" ∨ descr = "" then
              .error "ValueError: COMMAND and DESCRIPTION class variables must be defined"
            else .ok ([command], descr)
        | .otherClass => .error "TypeError: invalid subcommand type"
        | .nonClass => .error "TypeError: issubclass arg 1 must be a class")
      let sub ← (match child with
        | .nil => pure (CParser.mk [])
        | _ => do pure (CParser.mk (← goLegacyCli child)))
      let restSubs ← goLegacyCli rest
      pure ((labeled.1, labeled.2, sub) :: restSubs)

/-- Legacy gen_cli_parser(root_parser, parser_config): an empty config returns
the parser unchanged, otherwise the subcommand parsers built from the entries
are attached to it. -/
def genCliLegacy (root : CParser) (cfg : LConfig) : Except String CParser :=
  match cfg with
  | .nil => .ok root
  | _ => do
      let subs ← goLegacyCli cfg
      pure (CParser.mk (root.subs ++ subs))

/-- A key of the modern CliParserConfig: a ("command", description) tuple, a
(("command", aliases...), description) tuple, a CliTask subclass with its
command, description and aliases, a class not deriving CliTask, or a
non-class object. -/
inductive MCKey where
  | tupStr (label : String) (descr : String)
  | tupSeq (command : String) (aliases : List String) (descr : String)
  | cliTask (command : String) (descr : String) (aliases : List String)
  | otherClass
  | nonClass

/-- A modern parser config, written as a cons list of (key, child) entries. -/
inductive MConfig where
  | nil
  | cons (key : MCKey) (child : MConfig) (rest : MConfig)

/-- The entry loop of the modern gen_cli_parser.  There is no else branch for
a key that is a class but not a CliTask subclass: such a key binds no
subcommand parser, so it is skipped when its child config is empty; with a
non-empty child config Python either raises UnboundLocalError (no parser
bound yet) or recurses into the parser bound by a previous iteration, which
the accumulator models by rebuilding that previous entry. -/
def goModernCli : MConfig → List (List String × String × CParser) →
    Except String (List (List String × String × CParser))
  | .nil, acc => .ok acc.reverse
  | .cons key child rest, acc =>
    match key with
    | .tupStr label descr => do
        let sub ← (match child with
          | .nil => pure (CParser.mk [])
          | _ => do pure (CParser.mk (← goModernCli child [])))
        goModernCli rest (([label], descr, sub) :: acc)
    | .tupSeq command aliases descr => do
        let sub ← (match child with
          | .nil => pure (CParser.mk [])
          | _ => do pure (CParser.mk (← goModernCli child [])))
        goModernCli rest ((command :: aliases, descr, sub) :: acc)
    | .cliTask command descr aliases =>
        if command = "" ∨ descr = "" then
          .error "ValueError: command and description class variables must be defined"
        else do
          let sub ← (match child with
            | .nil => pure (CParser.mk [])
            | _ => do pure (CParser.mk (← goModernCli child [])))
          goModernCli rest ((command :: aliases, descr, sub) :: acc)
    | .otherClass =>
        (match child with
        | .nil => goModernCli rest acc
        | _ =>
            match acc with
            | [] => .error "UnboundLocalError: subcommand parser referenced before assignment"
            | (ls, d, stale) :: accRest => do
                let childSubs ← goModernCli child []
                goModernCli rest ((ls, d, CParser.mk (stale.subs ++ childSubs)) :: accRest))
    | .nonClass => .error "TypeError: issubclass arg 1 must be a class"

/-- Modern gen_cli_parser(root_parser, parser_config). -/
def genCliModern (root : CParser) (cfg : MConfig) : Except String CParser :=
  match cfg with
  | .nil => .ok root
  | _ => do
      let subs ← goModernCli cfg []
      pure (CParser.mk (root.subs ++ subs))

/-! ## Helper lemmas -/

theorem foldlInvariant {α β : Type _} (f : α → β → α) (P : α → Prop)
    (h : ∀ a b, P a → P (f a b)) : ∀ (l : List β) (a : α), P a → P (l.foldl f a) := by
  intro l
  induction l with
  | nil => intro a ha; exact ha
  | cons b bs ih => intro a ha; exact ih _ (h a b ha)

theorem alistGet_alistSet_ne (l : AList) (n m : String) (v : Value) (h : ¬n = m) :
    alistGet (alistSet l n v) m = alistGet l m := by
  induction l with
  | nil => simp [alistSet, alistGet, h]
  | cons p rest ih =>
      obtain ⟨k, w⟩ := p
      by_cases hk : k = n
      · subst hk
        simp [alistSet, alistGet, h]
      · simp [alistSet, alistGet, hk, ih]

theorem legacyMergeValueWithName_result (t : LTask) (n : String) (v : Value) :
    (legacyMergeValueWithName t n v).result = t.result := by
  unfold legacyMergeValueWithName
  split
  · rfl
  · split <;> rfl

theorem legacyMergeValueWithName_attrs_ne (t : LTask) (n : String) (v : Value)
    (f : String) (h : ¬n = f) :
    alistGet (legacyMergeValueWithName t n v).attrs f = alistGet t.attrs f := by
  unfold legacyMergeValueWithName
  split
  · rfl
  · split
    · exact alistGet_alistSet_ne _ _ _ _ h
    · rfl

theorem legacyMergeValueWithName_state_ne (t : LTask) (n : String) (v : Value)
    (f : String) (h : ¬n = f) :
    alistGet ((legacyMergeValueWithName t n v).state.getD []) f =
      alistGet (t.state.getD []) f := by
  unfold legacyMergeValueWithName
  split
  · rfl
  · split
    · rfl
    · simpa using alistGet_alistSet_ne (t.state.getD []) n f v h

/-- getattr on a modern task, for the attributes hasattr recognizes. -/
def mGetattr (t : MTask) (f : String) : Option Value :=
  if f = "raise_exceptions" then some t.raise_exceptions
  else if f = "result" then some t.result
  else alistGet t.fields f

theorem mSetattr_mGetattr_ne (t : MTask) (n : String) (v : Value)
    (f : String) (h : ¬n = f) :
    mGetattr (mSetattr t n v) f = mGetattr t f := by
  have hrr : ¬("result" : String) = "raise_exceptions" := by decide
  by_cases h1 : n = "raise_exceptions"
  · subst h1
    have hf : ¬f = "raise_exceptions" := fun hf => h hf.symm
    simp [mSetattr, mGetattr, hf]
  · by_cases h2 : n = "result"
    · subst h2
      have hf : ¬f = "result" := fun hf => h hf.symm
      simp [mSetattr, mGetattr, hrr, hf]
    · by_cases h3 : (alistGet t.fields n).isSome = true
      · simp [mSetattr, mGetattr, h1, h2, h3, alistGet_alistSet_ne t.fields n f v h]
      · simp [mSetattr, mGetattr, h1, h2, h3]

theorem runLegacy_trace (b : LBehavior) (t : LTask) :
    (runLegacy b t).1 = [Ev.preambleRun, Ev.performRun, Ev.postambleRun] := by
  rcases hp : b.perform (b.preamble t) with ⟨t2, raised⟩
  simp [runLegacy, hp]

theorem runModern_trace (b : MBehavior) (t : MTask) :
    (runModern b t).1 = [Ev.preambleRun, Ev.performRun, Ev.postambleRun] := by
  rcases hp : b.perform (b.preamble t) with ⟨t2, raised⟩
  cases raised
  · simp [runModern, hp]
  · simp only [runModern, hp]
    split <;> rfl

theorem setResErr_isRes (r e : Value) : Value.isRes (setResErr r e) = Value.isRes r := by
  cases r <;> rfl

theorem errOfValue_setResErr (r e : Value) (h : Value.isRes r = true) :
    errOfValue (setResErr r e) = some e := by
  cases r <;> simp_all [Value.isRes, setResErr, errOfValue]

/-- When the effective exclude set is non-empty, a pair that passes the merge
filter of merge_object is not in the effective exclude set. -/
theorem mergeCondNotMem (eg ig : Bool) (excSet incSet : List String) (p : String)
    (hE : excSet.isEmpty = false)
    (hc : (!(eg || !excSet.isEmpty || ig) ||
      (!(decide (p ∈ excSet)) && (!ig || decide (p ∈ incSet)))) = true) :
    p ∉ excSet := by
  rw [hE] at hc
  simp only [Bool.not_false, Bool.or_true, Bool.true_or, Bool.not_true,
    Bool.false_or, Bool.and_eq_true, Bool.not_eq_true',
    decide_eq_false_iff_not] at hc
  exact hc.1

/-- The captured error of a legacy task, read through its result reference:
None when the task has no result object yet. -/
def lTaskErr (t : LTask) : Option Value :=
  match t.result with
  | Option.none => Option.none
  | some r => r.err

/-- A trivial task subclass behavior: all hooks are no-ops and the main logic
succeeds without touching the instance. -/
def lNoopBehavior : LBehavior :=
  { preamble := fun u => u, perform := fun u => (u, Option.none), postamble := fun u => u }

/-- A legacy task subclass behavior whose main logic raises "boom". -/
def lBoomBehavior : LBehavior :=
  { preamble := fun u => u, perform := fun u => (u, some (.vStr "boom")), postamble := fun u => u }

/-- A modern task subclass behavior: all hooks no-ops, main logic succeeds. -/
def mNoopBehavior : MBehavior :=
  { preamble := fun u => u, perform := fun u => (u, Option.none), postamble := fun u => u }

/-- A modern task subclass behavior whose main logic raises "boom". -/
def mBoomBehavior : MBehavior :=
  { preamble := fun u => u, perform := fun u => (u, some (.vStr "boom")), postamble := fun u => u }

/-! ## Conformance checks against the unit tests of the repository -/

/-- test_task_merge_object, dict case: merging a plain mapping onto a
TestTask whose only declared field is foo="bar" sets foo and accumulates the
unrecognized key into state. -/
theorem validates_legacy_merge_dict :
    legacyMergeObject (lTaskInit [] [("foo", .vStr "bar")])
      (.dict [("foo", .vStr "barrio"), ("bar", .vStr "foo")]) Option.none Option.none Option.none =
    .ok (lTaskInit [] [("foo", .vStr "barrio")] (some [("bar", .vStr "foo")])) := rfl

/-- test_task_merge_object_include_exclude, case include={"bar"}. -/
theorem validates_legacy_merge_include :
    legacyMergeObject (lTaskInit [] [("foo", .vStr "bar")])
      (.dict [("bar", .vStr "foo"), ("color", .vStr "red"), ("apple", .vStr "honey crisp")])
      (some ["bar"]) Option.none Option.none =
    .ok (lTaskInit [] [("foo", .vStr "bar")] (some [("bar", .vStr "foo")])) := rfl

/-- test_task_merge_object_include_exclude, case exclude={"bar","color"} with
include={"bar","color"}: exclude wins and only apple survives. -/
theorem validates_legacy_merge_exclude_include :
    legacyMergeObject (lTaskInit [] [("foo", .vStr "bar")])
      (.dict [("bar", .vStr "foo"), ("color", .vStr "red"), ("apple", .vStr "honey crisp")])
      (some ["bar", "color"]) (some ["bar", "color"]) Option.none =
    .ok (lTaskInit [] [("foo", .vStr "bar")] (some [("apple", .vStr "honey crisp")])) := rfl

/-- test_task_merge_object_include_exclude, case _EXCLUDE_FROM_MERGE={"color"}
with no caller filters. -/
theorem validates_legacy_merge_class_exclude :
    legacyMergeObject (lTaskInit ["color"] [])
      (.dict [("bar", .vStr "foo"), ("color", .vStr "red"), ("apple", .vStr "honey crisp")])
      Option.none Option.none Option.none =
    .ok (lTaskInit ["color"] []
      (some [("bar", .vStr "foo"), ("apple", .vStr "honey crisp")])) := rfl

/-- test_task_merge_object_include_exclude, case exclude={"bar"} with
overwrite={"color": "purple"}: the overwrite wins over the merged color. -/
theorem validates_legacy_merge_exclude_overwrite :
    legacyMergeObject (lTaskInit [] [("foo", .vStr "bar")])
      (.dict [("bar", .vStr "foo"), ("color", .vStr "red"), ("apple", .vStr "honey crisp")])
      Option.none (some ["bar"]) (some [("color", .vStr "purple")]) =
    .ok (lTaskInit [] [("foo", .vStr "bar")]
      (some [("color", .vStr "purple"), ("apple", .vStr "honey crisp")])) := rfl

/-- test_task_merge_object, Namespace case: kwargs arrive sorted by name. -/
theorem validates_legacy_merge_nspace :
    legacyMergeObject (lTaskInit [] [("foo", .vStr "bar")])
      (.nspace [("foo", .vStr "barrio"), ("apple", .vStr "granny smith")])
      Option.none Option.none Option.none =
    .ok (lTaskInit [] [("foo", .vStr "barrio")] (some [("apple", .vStr "granny smith")])) := rfl

/-- test_gen_pairs_from_object, Task-with-state case: state items come first,
then the slot pairs sorted by name. -/
theorem validates_legacy_task_pairs :
    lGenPairsFromObject (.task (lTaskInit [] [("foo", .vStr "bar")]
      (some [("bar", .vStr "foo")]))) =
    .ok [("bar", .vStr "foo"),
         ("foo", .vStr "bar"),
         ("result", .vNone),
         ("state", .vDict [("bar", .vStr "foo")])] := rfl

/-! ## Claim theorems -/

/-- Claim C2: for every target task, every merge source and every pair of
non-empty sets X and Y (written as cons cells), merge_object with
exclude=X and include=Y produces exactly the same outcome as merge_object
with exclude=X alone, in both the legacy and the modern shape. -/
theorem claim_merge_exclude_wins_over_include
    (tL : LTask) (objL : LSource) (owL : Option AList)
    (tM : MTask) (objM : MSource) (owM : Option AList)
    (x y : String) (xs ys : List String) :
    legacyMergeObject tL objL (some (y :: ys)) (some (x :: xs)) owL =
      legacyMergeObject tL objL Option.none (some (x :: xs)) owL ∧
    modernMergeObject tM objM (some (y :: ys)) (some (x :: xs)) owM =
      modernMergeObject tM objM Option.none (some (x :: xs)) owM :=
  ⟨rfl, rfl⟩

/-- Claim C4: in both shapes, merge_object with an overwrite mapping equals
merge_object without it followed by one unconditional pass that applies every
overwrite entry through the plain per-pair merge rule (the legacy
set-if-recognized/accumulate-otherwise rule, the modern set-if-recognized
rule), with the include/exclude filter nowhere involved. -/
theorem claim_merge_overwrite_applied_last_unfiltered
    (tL : LTask) (objL : LSource) (incL excL : Option (List String)) (owL : AList)
    (tM : MTask) (objM : MSource) (incM excM : Option (List String)) (owM : AList) :
    legacyMergeObject tL objL incL excL (some owL) =
      (legacyMergeObject tL objL incL excL Option.none).map
        (fun u => owL.foldl (fun acc p => legacyMergeValueWithName acc p.1 p.2) u) ∧
    modernMergeObject tM objM incM excM (some owM) =
      (modernMergeObject tM objM incM excM Option.none).map
        (fun u => owM.foldl
          (fun acc p => if mHasattr acc p.1 then mSetattr acc p.1 p.2 else acc) u) := by
  constructor
  · cases h : lGenPairsFromObject objL <;> simp [legacyMergeObject, h, Except.map]
  · cases h : mGenPairsFromObject objM <;> simp [modernMergeObject, h, Except.map]

/-- Claim C3: a field named in the permanent class exclusion set
(_EXCLUDE_FROM_MERGE / _exclude_from_merge, necessarily non-empty here since
it has a member) is left unchanged by merge_object for every source and every
combination of caller include/exclude arguments, in both shapes, when no
overwrite mapping is supplied.  In the legacy shape both the slot attribute
and the state entry of that name are unchanged; in the modern shape the
attribute is unchanged. -/
theorem claim_merge_class_exclusions_never_change
    (tL : LTask) (objL : LSource) (incL excL : Option (List String))
    (fL : String) (tL2 : LTask)
    (hfL : fL ∈ tL.excludeFromMerge)
    (hmL : legacyMergeObject tL objL incL excL Option.none = .ok tL2)
    (tM : MTask) (objM : MSource) (incM excM : Option (List String))
    (fM : String) (tM2 : MTask)
    (hfM : fM ∈ tM.excludeFromMerge)
    (hmM : modernMergeObject tM objM incM excM Option.none = .ok tM2) :
    (alistGet tL2.attrs fL = alistGet tL.attrs fL ∧
      alistGet (tL2.state.getD []) fL = alistGet (tL.state.getD []) fL) ∧
    mGetattr tM2 fM = mGetattr tM fM := by
  constructor
  · cases h : lGenPairsFromObject objL with
    | error e => simp [legacyMergeObject, h] at hmL
    | ok items =>
      simp only [legacyMergeObject, h, Except.ok.injEq] at hmL
      subst hmL
      have hESne : (excL.getD [] ++ tL.excludeFromMerge).isEmpty = false := by
        cases hE : excL.getD [] ++ tL.excludeFromMerge with
        | nil =>
            have : fL ∈ excL.getD [] ++ tL.excludeFromMerge :=
              List.mem_append_right _ hfL
            rw [hE] at this
            exact absurd this (List.not_mem_nil fL)
        | cons a l => rfl
      refine foldlInvariant _
        (fun u => alistGet u.attrs fL = alistGet tL.attrs fL ∧
          alistGet (u.state.getD []) fL = alistGet (tL.state.getD []) fL)
        ?_ items tL ⟨rfl, rfl⟩
      intro a p hP
      dsimp only
      split <;> split
      case isTrue.isTrue _ hc =>
        have hnm := mergeCondNotMem _ _ _ _ p.1 hESne hc
        have hne : ¬p.1 = fL := fun he =>
          hnm (he ▸ List.mem_append_right _ hfL)
        exact ⟨(legacyMergeValueWithName_attrs_ne a p.1 p.2 fL hne).trans hP.1,
          (legacyMergeValueWithName_state_ne a p.1 p.2 fL hne).trans hP.2⟩
      case isTrue.isFalse _ _ => exact hP
      case isFalse.isTrue _ hc =>
        have hnm := mergeCondNotMem _ _ _ _ p.1 hESne hc
        have hne : ¬p.1 = fL := fun he =>
          hnm (he ▸ List.mem_append_right _ hfL)
        exact ⟨(legacyMergeValueWithName_attrs_ne a p.1 p.2 fL hne).trans hP.1,
          (legacyMergeValueWithName_state_ne a p.1 p.2 fL hne).trans hP.2⟩
      case isFalse.isFalse _ _ => exact hP
  · cases h : mGenPairsFromObject objM with
    | error e => simp [modernMergeObject, h] at hmM
    | ok items =>
      simp only [modernMergeObject, h, Except.ok.injEq] at hmM
      subst hmM
      have hESne : (excM.getD [] ++ tM.excludeFromMerge).isEmpty = false := by
        cases hE : excM.getD [] ++ tM.excludeFromMerge with
        | nil =>
            have : fM ∈ excM.getD [] ++ tM.excludeFromMerge :=
              List.mem_append_right _ hfM
            rw [hE] at this
            exact absurd this (List.not_mem_nil fM)
        | cons a l => rfl
      refine foldlInvariant _
        (fun u => mGetattr u fM = mGetattr tM fM)
        ?_ items tM rfl
      intro a p hP
      dsimp only
      split <;> split
      case isTrue.isTrue _ hc =>
        rw [Bool.and_eq_true] at hc
        have hnm := mergeCondNotMem _ _ _ _ p.1 hESne hc.2
        have hne : ¬p.1 = fM := fun he =>
          hnm (he ▸ List.mem_append_right _ hfM)
        exact (mSetattr_mGetattr_ne a p.1 p.2 fM hne).trans hP
      case isTrue.isFalse _ _ => exact hP
      case isFalse.isTrue _ hc =>
        rw [Bool.and_eq_true] at hc
        have hnm := mergeCondNotMem _ _ _ _ p.1 hESne hc.2
        have hne : ¬p.1 = fM := fun he =>
          hnm (he ▸ List.mem_append_right _ hfM)
        exact (mSetattr_mGetattr_ne a p.1 p.2 fM hne).trans hP
      case isFalse.isFalse _ _ => exact hP

/-- Witness for claim C3: a legacy task class excluding "color" merged with a
dict containing color keeps its color slot and state entry; a modern task
class excluding "color" keeps its color attribute. -/
theorem claim_merge_class_exclusions_never_change_witness :
    ("color" ∈ (lTaskInit ["color"] [("foo", .vStr "bar")]).excludeFromMerge) ∧
    ((alistGet (lTaskInit ["color"] [("foo", .vStr "bar")]
          (some [("bar", .vStr "foo")])).attrs "color" =
        alistGet (lTaskInit ["color"] [("foo", .vStr "bar")]).attrs "color" ∧
      alistGet ((lTaskInit ["color"] [("foo", .vStr "bar")]
          (some [("bar", .vStr "foo")])).state.getD []) "color" =
        alistGet ((lTaskInit ["color"] [("foo", .vStr "bar")]).state.getD []) "color") ∧
      mGetattr (mTaskInit ["color"] [] [("color", .vStr "blue")]) "color" =
        mGetattr (mTaskInit ["color"] [] [("color", .vStr "blue")]) "color") :=
  ⟨by decide, claim_merge_class_exclusions_never_change
    (lTaskInit ["color"] [("foo", .vStr "bar")])
    (.dict [("color", .vStr "red"), ("bar", .vStr "foo")]) Option.none Option.none
    "color" (lTaskInit ["color"] [("foo", .vStr "bar")] (some [("bar", .vStr "foo")]))
    (by decide) rfl
    (mTaskInit ["color"] [] [("color", .vStr "blue")])
    (.dict [("color", .vStr "red")]) Option.none Option.none
    "color" (mTaskInit ["color"] [] [("color", .vStr "blue")])
    (by decide) rfl⟩

/-- Claim C10: in the legacy shape the reserved names are never merged:
_merge_value_with_name drops a pair named "state" or "result" outright, so a
merge never changes the result reference of the target, and a merge whose
source pairs and overwrite entries all carry reserved names leaves the target
completely unchanged, for every include/exclude combination. -/
theorem claim_legacy_state_result_never_merged :
    (∀ (u : LTask) (v : Value), legacyMergeValueWithName u "state" v = u) ∧
    (∀ (u : LTask) (v : Value), legacyMergeValueWithName u "result" v = u) ∧
    (∀ (t0 : LTask) (obj : LSource) (inc exc : Option (List String))
        (ow : Option AList) (t2 : LTask),
      legacyMergeObject t0 obj inc exc ow = .ok t2 → t2.result = t0.result) ∧
    (∀ (u : LTask) (inc exc : Option (List String)) (vs vr wv : Value),
      legacyMergeObject u (.dict [("state", vs), ("result", vr)]) inc exc
        (some [("state", wv), ("result", wv)]) = .ok u) := by
  refine ⟨?_, ?_, ?_, ?_⟩
  · intro u v; simp [legacyMergeValueWithName]
  · intro u v; simp [legacyMergeValueWithName]
  · intro t0 obj inc exc ow t2 hm
    cases hg : lGenPairsFromObject obj with
    | error e => simp [legacyMergeObject, hg] at hm
    | ok items =>
      cases ow with
      | none =>
        simp only [legacyMergeObject, hg, Except.ok.injEq] at hm
        subst hm
        refine foldlInvariant _ (fun u => u.result = t0.result) ?_ items t0 rfl
        intro a p hP
        dsimp only
        split <;> split
        case isTrue.isTrue _ _ => exact (legacyMergeValueWithName_result a p.1 p.2).trans hP
        case isTrue.isFalse _ _ => exact hP
        case isFalse.isTrue _ _ => exact (legacyMergeValueWithName_result a p.1 p.2).trans hP
        case isFalse.isFalse _ _ => exact hP
      | some o =>
        simp only [legacyMergeObject, hg, Except.ok.injEq] at hm
        subst hm
        have hbase : ∀ (l : AList) (u : LTask), u.result = t0.result →
            (l.foldl (fun acc p => legacyMergeValueWithName acc p.1 p.2) u).result =
              t0.result := by
          intro l u hu
          refine foldlInvariant _ (fun w => w.result = t0.result) ?_ l u hu
          intro a p hP
          exact (legacyMergeValueWithName_result a p.1 p.2).trans hP
        refine hbase o _ ?_
        refine foldlInvariant _ (fun u => u.result = t0.result) ?_ items t0 rfl
        intro a p hP
        dsimp only
        split <;> split
        case isTrue.isTrue _ _ => exact (legacyMergeValueWithName_result a p.1 p.2).trans hP
        case isTrue.isFalse _ _ => exact hP
        case isFalse.isTrue _ _ => exact (legacyMergeValueWithName_result a p.1 p.2).trans hP
        case isFalse.isFalse _ _ => exact hP
  · intro u inc exc vs vr wv
    simp [legacyMergeObject, lGenPairsFromObject, legacyMergeValueWithName]

/-- Witness for claim C10: the result-preservation component applied at a
concrete merge that sets a recognized field and accumulates an unrecognized
one. -/
theorem claim_legacy_state_result_never_merged_witness :
    (lTaskInit [] [("foo", .vStr "barrio")] (some [("bar", .vStr "foo")])
      (some { err := Option.none, fields := [] })).result =
    (lTaskInit [] [("foo", .vStr "bar")] Option.none
      (some { err := Option.none, fields := [] })).result :=
  claim_legacy_state_result_never_merged.2.2.1
    (lTaskInit [] [("foo", .vStr "bar")] Option.none (some { err := Option.none, fields := [] }))
    (.dict [("foo", .vStr "barrio"), ("bar", .vStr "foo")])
    Option.none Option.none Option.none
    (lTaskInit [] [("foo", .vStr "barrio")] (some [("bar", .vStr "foo")])
      (some { err := Option.none, fields := [] }))
    rfl

/-- Claim C6: when the main-logic hook raises and propagation is off, run()
does not raise and returns a non-null result whose err equals the raised
exception, in both shapes (the legacy shape can never propagate); and in every
run of either shape, success or failure, the postamble hook fires exactly
once.  The hypotheses say which exception perform raised and that the
preamble/postamble hooks leave the result reference alone, as cleanup hooks
do. -/
theorem claim_run_failure_captured_postamble_once
    (bL : LBehavior) (tL tL2 : LTask) (excL : Value)
    (hL : bL.perform (bL.preamble tL) = (tL2, some excL))
    (hLpost : ∀ u, (bL.postamble u).result = u.result)
    (bM : MBehavior) (tM tM2 : MTask) (excM : Value)
    (hM : bM.perform (bM.preamble tM) = (tM2, some excM))
    (hMraise : truthy tM2.raise_exceptions = false)
    (hMres : Value.isRes tM2.result = true)
    (hMpost : ∀ u, (bM.postamble u).result = u.result) :
    (((runLegacy bL tL).2.result).isSome = true ∧
      lTaskErr (runLegacy bL tL).2 = some excL) ∧
    ((runModern bM tM).2 =
        .ok (setResErr tM2.result excM,
          bM.postamble { tM2 with result := setResErr tM2.result excM }) ∧
      errOfValue (setResErr tM2.result excM) = some excM ∧
      Value.isRes (setResErr tM2.result excM) = true) ∧
    (∀ (b : LBehavior) (t : LTask), (runLegacy b t).1.count Ev.postambleRun = 1) ∧
    (∀ (b : MBehavior) (t : MTask), (runModern b t).1.count Ev.postambleRun = 1) := by
  refine ⟨⟨?_, ?_⟩, ⟨?_, ?_, ?_⟩, ?_, ?_⟩
  · cases hr : tL2.result <;>
      simp [runLegacy, hL, hLpost, hr, lTaskErr, genTaskResult]
  · cases hr : tL2.result <;>
      simp [runLegacy, hL, hLpost, hr, lTaskErr, genTaskResult]
  · simp [runModern, hL, hM, hMraise, hMpost]
  · exact errOfValue_setResErr _ _ hMres
  · rw [setResErr_isRes]; exact hMres
  · intro b t; rw [runLegacy_trace]; rfl
  · intro b t; rw [runModern_trace]; rfl

/-- Witness for claim C6: a concrete legacy and modern task whose main logic
raises "boom" with no-op hooks; the captured error and the single postamble
invocation, via the theorem. -/
theorem claim_run_failure_captured_postamble_once_witness :
    (((runLegacy lBoomBehavior (lTaskInit [] [])).2.result).isSome = true ∧
      lTaskErr (runLegacy lBoomBehavior (lTaskInit [] [])).2 = some (.vStr "boom")) ∧
    (runLegacy lBoomBehavior (lTaskInit [] [])).1.count Ev.postambleRun = 1 ∧
    (runModern mBoomBehavior (mTaskInit [] [] [])).1.count Ev.postambleRun = 1 :=
  have h := claim_run_failure_captured_postamble_once
    lBoomBehavior (lTaskInit [] []) (lTaskInit [] []) (.vStr "boom") rfl (fun _ => rfl)
    mBoomBehavior (mTaskInit [] [] []) (mTaskInit [] [] []) (.vStr "boom") rfl rfl rfl
    (fun _ => rfl)
  ⟨h.1, h.2.2.1 lBoomBehavior (lTaskInit [] []), h.2.2.2 mBoomBehavior (mTaskInit [] [] [])⟩

/-- Claim C7: a modern task configured to propagate (raise_exceptions truthy
after perform) re-raises the exception raised by the main-logic hook, and the
postamble hook runs, and runs before the exception escapes: the escaping
outcome already carries the postamble-processed task. -/
theorem claim_run_propagate_postamble_before_escape
    (b : MBehavior) (t t2 : MTask) (exc : Value)
    (h : b.perform (b.preamble t) = (t2, some exc))
    (hraise : truthy t2.raise_exceptions = true) :
    (runModern b t).2 =
      .error (exc, b.postamble { t2 with result := setResErr t2.result exc }) ∧
    (runModern b t).1.count Ev.postambleRun = 1 := by
  constructor
  · simp [runModern, h, hraise]
  · rw [runModern_trace]; rfl

/-- Witness for claim C7: a concrete modern task with raise_exceptions=True
whose main logic raises "boom": run escapes with "boom" and the postamble has
run on the escaping task. -/
theorem claim_run_propagate_postamble_before_escape_witness :
    (runModern mBoomBehavior (mTaskInit [] [] [] (.vBool true))).2 =
      .error (.vStr "boom",
        mBoomBehavior.postamble
          { mTaskInit [] [] [] (.vBool true) with
              result := setResErr (mTaskInit [] [] [] (.vBool true)).result (.vStr "boom") }) ∧
    (runModern mBoomBehavior (mTaskInit [] [] [] (.vBool true))).1.count Ev.postambleRun = 1 :=
  claim_run_propagate_postamble_before_escape mBoomBehavior
    (mTaskInit [] [] [] (.vBool true)) (mTaskInit [] [] [] (.vBool true))
    (.vStr "boom") rfl rfl

/-- The err field of the final result of a modern run, whether the run
returned or escaped with an exception. -/
def resultErrOfOutcome : Except (Value × MTask) (Value × MTask) → Option Value
  | .ok (r, _) => errOfValue r
  | .error (_, t3) => errOfValue t3.result

/-- The exception a modern run escaped with, if it escaped. -/
def escapedExc : Except (Value × MTask) (Value × MTask) → Option Value
  | .ok _ => Option.none
  | .error (e, _) => some e

/-- Counterexample to claim C8: a modern task with raise_exceptions=True
whose main logic raises "boom".  run() escapes with the exception, but the
result's error field HAS been populated with it (the code sets it before
re-raising, for use in the postamble), contradicting the claim that the error
field is not populated when propagation is enabled. -/
theorem claim_c8_counterexample :
    (runModern mBoomBehavior (mTaskInit [] [] [] (.vBool true))).2 =
      .error (.vStr "boom",
        { mTaskInit [] [] [] (.vBool true) with
            result := .vRes (some (.vStr "boom")) [] }) ∧
    errOfValue ({ mTaskInit [] [] [] (.vBool true) with
        result := .vRes (some (.vStr "boom")) [] } : MTask).result =
      some (.vStr "boom") :=
  ⟨rfl, rfl⟩

/-- Claim C8 as amended: in either shape, run() populates the result's error
field exactly when _perform_task raises, regardless of the propagation
setting; with propagation enabled the error is recorded on the result before
the exception re-escapes, and in the success path run() leaves the result
exactly as the main-logic hook left it. -/
theorem claim_run_err_populated_iff_perform_raised
    (bM : MBehavior) (tM tM2 : MTask) (excM : Value)
    (hM : bM.perform (bM.preamble tM) = (tM2, some excM))
    (hMres : Value.isRes tM2.result = true)
    (hMpost : ∀ u, (bM.postamble u).result = u.result)
    (cM : MBehavior) (sM sM2 : MTask)
    (hS : cM.perform (cM.preamble sM) = (sM2, Option.none))
    (hSpost : ∀ u, (cM.postamble u).result = u.result)
    (bL : LBehavior) (tL tL2 : LTask) (excL : Value)
    (hL : bL.perform (bL.preamble tL) = (tL2, some excL))
    (hLpost : ∀ u, (bL.postamble u).result = u.result)
    (cL : LBehavior) (sL sL2 : LTask)
    (hSL : cL.perform (cL.preamble sL) = (sL2, Option.none))
    (hSLpost : ∀ u, (cL.postamble u).result = u.result) :
    resultErrOfOutcome (runModern bM tM).2 = some excM ∧
    (escapedExc (runModern bM tM).2 = Option.none ∨
      escapedExc (runModern bM tM).2 = some excM) ∧
    (runModern cM sM).2 = .ok (sM2.result, cM.postamble sM2) ∧
    lTaskErr (runLegacy bL tL).2 = some excL ∧
    (runLegacy cL sL).2.result = sL2.result := by
  refine ⟨?_, ?_, ?_, ?_, ?_⟩
  · cases hflag : truthy tM2.raise_exceptions <;>
      simp [resultErrOfOutcome, runModern, hM, hflag, hMpost,
        errOfValue_setResErr _ excM hMres]
  · cases hflag : truthy tM2.raise_exceptions
    · left; simp [escapedExc, runModern, hM, hflag]
    · right; simp [escapedExc, runModern, hM, hflag]
  · simp [runModern, hS, hSpost]
  · cases hr : tL2.result <;>
      simp [runLegacy, hL, hLpost, hr, lTaskErr, genTaskResult]
  · simp [runLegacy, hSL, hSLpost]

/-- Witness for the amended claim C8: concrete raising and succeeding tasks
in both shapes, with propagation enabled on the modern raising one. -/
theorem claim_run_err_populated_iff_perform_raised_witness :
    resultErrOfOutcome
        (runModern mBoomBehavior (mTaskInit [] [] [] (.vBool true))).2 =
      some (.vStr "boom") ∧
    (runModern mNoopBehavior (mTaskInit [] [] [])).2 =
      .ok ((mTaskInit [] [] []).result, mNoopBehavior.postamble (mTaskInit [] [] [])) ∧
    lTaskErr (runLegacy lBoomBehavior (lTaskInit [] [])).2 = some (.vStr "boom") ∧
    (runLegacy lNoopBehavior (lTaskInit [] [])).2.result = (lTaskInit [] []).result :=
  have h := claim_run_err_populated_iff_perform_raised
    mBoomBehavior (mTaskInit [] [] [] (.vBool true)) (mTaskInit [] [] [] (.vBool true))
    (.vStr "boom") rfl rfl (fun _ => rfl)
    mNoopBehavior (mTaskInit [] [] []) (mTaskInit [] [] []) rfl (fun _ => rfl)
    lBoomBehavior (lTaskInit [] []) (lTaskInit [] []) (.vStr "boom") rfl (fun _ => rfl)
    lNoopBehavior (lTaskInit [] []) (lTaskInit [] []) rfl (fun _ => rfl)
  ⟨h.1, h.2.2.1, h.2.2.2.1, h.2.2.2.2⟩

/-- Counterexample to claim C1: in the legacy shape a freshly constructed
Task has result=None, and a run whose main logic succeeds without setting a
result returns None. -/
theorem claim_c1_counterexample :
    (lTaskInit [] []).result = Option.none ∧
    (runLegacy lNoopBehavior (lTaskInit [] [])).2.result = Option.none :=
  ⟨rfl, rfl⟩

/-- Claim C1 as amended: in the modern shape the result is a real TaskResult
object immediately after construction, and run() returns a real TaskResult
whenever it returns, provided the hooks preserve that shape; in the legacy
shape the result may be None after construction and after a successful run,
but the failure path of run() always produces a non-null result. -/
theorem claim_result_nonnull_modern
    (declExcl : List String) (resultDefaults fields : AList) (re : Value)
    (bM : MBehavior)
    (hpre : ∀ u, Value.isRes u.result = true → Value.isRes (bM.preamble u).result = true)
    (hperf : ∀ u, Value.isRes u.result = true → Value.isRes (bM.perform u).1.result = true)
    (hpost : ∀ u, Value.isRes u.result = true → Value.isRes (bM.postamble u).result = true)
    (bL : LBehavior) (tL tL2 : LTask) (excL : Value)
    (hL : bL.perform (bL.preamble tL) = (tL2, some excL))
    (hLpost : ∀ u, (bL.postamble u).result = u.result) :
    Value.isRes (mTaskInit declExcl resultDefaults fields re).result = true ∧
    (∀ r t3,
      (runModern bM (mTaskInit declExcl resultDefaults fields re)).2 = .ok (r, t3) →
      Value.isRes r = true) ∧
    ((runLegacy bL tL).2.result).isSome = true := by
  refine ⟨rfl, ?_, ?_⟩
  · intro r t3 hok
    have h1 : Value.isRes (bM.preamble (mTaskInit declExcl resultDefaults fields re)).result = true :=
      hpre _ rfl
    rcases hp : bM.perform (bM.preamble (mTaskInit declExcl resultDefaults fields re))
      with ⟨t2, raised⟩
    have h2 : Value.isRes t2.result = true := by
      have hh := hperf _ h1
      rw [hp] at hh
      exact hh
    cases raised with
    | none =>
        simp only [runModern, hp, Except.ok.injEq, Prod.mk.injEq] at hok
        rw [← hok.1]
        exact hpost t2 h2
    | some exc =>
        simp only [runModern, hp] at hok
        split at hok
        · simp at hok
        · simp only [Except.ok.injEq, Prod.mk.injEq] at hok
          rw [← hok.1]
          refine hpost _ ?_
          show Value.isRes (setResErr t2.result exc) = true
          rw [setResErr_isRes]
          exact h2
  · cases hr : tL2.result <;> simp [runLegacy, hL, hLpost, hr]

/-- Witness for the amended claim C1: a concrete modern task with no-op hooks
(run returns the fresh TaskResult) and a concrete raising legacy task (the
failure path materializes a result). -/
theorem claim_result_nonnull_modern_witness :
    Value.isRes (mTaskInit [] [] []).result = true ∧
    Value.isRes (Value.vRes Option.none []) = true ∧
    ((runLegacy lBoomBehavior (lTaskInit [] [])).2.result).isSome = true :=
  have h := claim_result_nonnull_modern [] [] [] (.vBool false) mNoopBehavior
    (fun _ hh => hh) (fun _ hh => hh) (fun _ hh => hh)
    lBoomBehavior (lTaskInit [] []) (lTaskInit [] []) (.vStr "boom") rfl (fun _ => rfl)
  ⟨h.1, h.2.1 (Value.vRes Option.none []) (mTaskInit [] [] []) rfl, h.2.2⟩

/-- Claim C5, evaluated on both generations: the legacy merge engine raises
TypeError for every source outside the supported union, as the claim states;
but the modern merge engine, fed an unsupported source that happens to define
__slots__ (here an object with one attribute x=1), silently merges its
attribute pairs instead of raising, because its pair extraction has no else
branch rejecting non-Task slotted objects. -/
theorem claim_unsupported_source_type_error :
    (∀ (t : LTask) (hasSlots : Bool) (pairs : AList)
        (inc exc : Option (List String)) (ow : Option AList),
      legacyMergeObject t (.unsupported hasSlots pairs) inc exc ow =
        .error "TypeError: cannot generate name-value pairs") ∧
    modernMergeObject (mTaskInit [] [] [("x", .vNone)])
        (.unsupported true [("x", .vInt 1)]) Option.none Option.none Option.none =
      .ok { mTaskInit [] [] [("x", .vNone)] with fields := [("x", .vInt 1)] } := by
  constructor
  · intro t hasSlots pairs inc exc ow
    rfl
  · rfl

/-- Claim C9, evaluated on both generations: the legacy tree builder raises
TypeError both for a class key that is not a CLITask subclass and for a
non-class key; the modern builder raises TypeError for a non-class key (from
issubclass), but silently ignores a class key that is not a CliTask subclass
because its loop has no else branch, returning the root parser unchanged. -/
theorem claim_cli_bad_key_type_error :
    genCliLegacy (.mk []) (.cons .otherClass .nil .nil) =
      .error "TypeError: invalid subcommand type" ∧
    genCliLegacy (.mk []) (.cons .nonClass .nil .nil) =
      .error "TypeError: issubclass arg 1 must be a class" ∧
    genCliModern (.mk []) (.cons .nonClass .nil .nil) =
      .error "TypeError: issubclass arg 1 must be a class" ∧
    genCliModern (.mk []) (.cons .otherClass .nil .nil) = .ok (.mk []) :=
  ⟨rfl, rfl, rfl, rfl⟩

/-- Scenario from the spec, modern shape: the command tree
(("invertebrates","i"), description) over an arthropods task builds the
two-level parser with the alias registered at the group level. -/
theorem validates_modern_cli_tree :
    genCliModern (.mk [])
      (.cons (.tupSeq "invertebrates" ["i"] "Invertebrate animals")
        (.cons (.cliTask "arthropods" "Arthropods task" []) .nil .nil) .nil) =
    .ok (.mk [(["invertebrates", "i"], "Invertebrate animals",
      .mk [(["arthropods"], "Arthropods task", .mk [])])]) := rfl

end LcTask
